import Mathlib

/-!
Verification development for the versioned persistence engine of the
symbiosis-memory-system repository (`src/src/core/memory_db.py`,
`src/src/services/versioning.py`, `src/src/services/persistence.py`,
`src/src/services/backup.py`).

The SQLite-backed store is shallowly embedded as a pure state type `DB`
holding the three tables (`memories`, `versions`, `backups` is modelled
separately with the backup service), with a logical clock standing for
`CURRENT_TIMESTAMP` and explicit next-id counters standing for SQLite
`AUTOINCREMENT` row ids.  Each Python method becomes a Lean function on
that state; a Python `raise` becomes an `Except.error` (validation in the
source happens before any write, so an error leaves the state unchanged,
exactly as in the code), and a Python `return False` becomes `.ok (db, false)`.
JSON payloads (`content` dicts) are modelled as association lists of
string key/value pairs; `json.dumps`/`json.loads` round-trip such dicts,
so the store keeps the payload value itself.  An empty dict is falsy in
Python, so the source's `if not content` check becomes `content.isEmpty`.
-/

/-- A JSON-object payload: the `content` dict of a record, modelled as an
association list of key/value pairs.  `json.dumps`/`json.loads` are inverse
on such documents, so serialization is dropped from the model. -/
abbrev Content := List (String × String)

/-- Errors raised by the embedded Python code.
`valueError` models Python `ValueError` (the spec's `ValidationError`, and
also tuple-unpacking failures); `unboundLocalError` models a reference to a
local variable that was never assigned on the executed path. -/
inductive PyError where
  | valueError (msg : String)
  | unboundLocalError (msg : String)
  deriving Repr, DecidableEq

/-- One row of the `memories` table. -/
structure MemoryRow where
  id : Nat
  memory_type : String
  session_id : Option String
  date : Option String
  content : Content
  importance : Int
  tags : Option String
  created_at : Nat
  updated_at : Nat
  is_deleted : Bool
  deriving Repr, DecidableEq

/-- One row of the `versions` table. -/
structure VersionRow where
  id : Nat
  memory_id : Nat
  version : Nat
  content : Content
  changed_by : String
  change_reason : Option String
  created_at : Nat
  deriving Repr, DecidableEq

/-- The state of the SQLite store: the two core tables, the next
`AUTOINCREMENT` row id for each, and a logical clock supplying
`CURRENT_TIMESTAMP` values (strictly increasing across mutations). -/
structure DB where
  memories : List MemoryRow
  versions : List VersionRow
  nextMemoryId : Nat
  nextVersionId : Nat
  now : Nat
  deriving Repr, DecidableEq

/-- The empty store right after `create_tables` on a fresh file
(SQLite row ids start at 1). -/
def DB.empty : DB :=
  { memories := [], versions := [], nextMemoryId := 1, nextVersionId := 1, now := 0 }

/-- Insertion into a `Bool`-sorted list (stable): used to model SQL
`ORDER BY`. -/
def insertLe {α : Type} (le : α → α → Bool) (x : α) : List α → List α
  | [] => [x]
  | y :: ys => if le x y then x :: y :: ys else y :: insertLe le x ys

/-- Stable insertion sort by a `Bool` comparison: the model of SQL
`ORDER BY`. -/
def insSort {α : Type} (le : α → α → Bool) : List α → List α
  | [] => []
  | x :: xs => insertLe le x (insSort le xs)

/-- `MemoryDB.save_memory` (`src/src/core/memory_db.py` lines 142-199):
validates the input (empty content, illegal `memory_type`, `importance`
outside `[0,10]` each raise `ValueError` before anything is written), then
in one transaction inserts the record row and its initial version row with
`version = 1`, `changed_by = 'system'`, `change_reason = 'Initial creation'`.
Returns the new record id (`lastrowid`). -/
def save_memory (db : DB) (memory_type : String) (content : Content)
    (session_id : Option String) (date : Option String)
    (importance : Int) (tags : Option (List String)) :
    Except PyError (DB × Nat) :=
  if content.isEmpty then
    .error (.valueError "记忆内容不能为空")
  else if ¬ (memory_type = "session" ∨ memory_type = "daily" ∨ memory_type = "longterm") then
    .error (.valueError ("无效的记忆类型: " ++ memory_type))
  else if importance < 0 ∨ importance > 10 then
    .error (.valueError "重要性评分必须在 0-10 之间")
  else
    let tags_str : Option String :=
      match tags with
      | some ts => if ts.isEmpty then none else some (String.intercalate "," ts)
      | none => none
    let memory_id := db.nextMemoryId
    let row : MemoryRow :=
      { id := memory_id, memory_type := memory_type, session_id := session_id,
        date := date, content := content, importance := importance,
        tags := tags_str, created_at := db.now, updated_at := db.now,
        is_deleted := false }
    let ver : VersionRow :=
      { id := db.nextVersionId, memory_id := memory_id, version := 1,
        content := content, changed_by := "system",
        change_reason := some "Initial creation", created_at := db.now }
    .ok ({ db with
            memories := db.memories ++ [row],
            versions := db.versions ++ [ver],
            nextMemoryId := memory_id + 1,
            nextVersionId := db.nextVersionId + 1,
            now := db.now + 1 }, memory_id)

/-- The read view produced by `MemoryDB.get_memory` / `get_memories`:
the row with `content` deserialized and `tags` split back into a list. -/
structure MemoryView where
  id : Nat
  memory_type : String
  session_id : Option String
  date : Option String
  content : Content
  importance : Int
  tags : List String
  created_at : Nat
  updated_at : Nat
  deriving Repr, DecidableEq

/-- Row-to-view conversion shared by `get_memory` and `get_memories`
(`json.loads` of the stored content; `tags.split(',') if tags else []`). -/
def MemoryRow.toView (m : MemoryRow) : MemoryView :=
  { id := m.id, memory_type := m.memory_type, session_id := m.session_id,
    date := m.date, content := m.content, importance := m.importance,
    tags := match m.tags with | some s => s.splitOn "," | none => [],
    created_at := m.created_at, updated_at := m.updated_at }

/-- `MemoryDB.get_memory` (lines 201-228):
`SELECT ... FROM memories WHERE id = ? AND is_deleted = 0`; `None` when no
such live row. -/
def get_memory (db : DB) (memory_id : Nat) : Option MemoryView :=
  (db.memories.find? (fun m => m.id == memory_id && !m.is_deleted)).map MemoryRow.toView

/-- `MemoryDB.get_memories` (lines 230-292): the live rows, optionally
filtered by type / session / date, `ORDER BY created_at DESC`, then
`LIMIT ? OFFSET ?`. -/
def get_memories (db : DB) (memory_type : Option String) (session_id : Option String)
    (date : Option String) (limit : Nat) (offset : Nat) : List MemoryView :=
  let keep : MemoryRow → Bool := fun m =>
    !m.is_deleted
      && (match memory_type with | some t => m.memory_type == t | none => true)
      && (match session_id with | some s => m.session_id == some s | none => true)
      && (match date with | some d => m.date == some d | none => true)
  let rows := insSort (fun a b => b.created_at ≤ a.created_at) (db.memories.filter keep)
  ((rows.drop offset).take limit).map MemoryRow.toView

/-- The rows of the `versions` table belonging to one record, in table
order (`SELECT ... WHERE memory_id = ?` before any `ORDER BY`). -/
def versionsOf (db : DB) (memory_id : Nat) : List VersionRow :=
  db.versions.filter (fun v => v.memory_id == memory_id)

/-- `SELECT MAX(version) FROM versions WHERE memory_id = ?`, with SQL
`MAX` of an empty selection read back as `0` (`result[0] or 0`). -/
def maxVersion (db : DB) (memory_id : Nat) : Nat :=
  (versionsOf db memory_id).foldl (fun m v => max m v.version) 0

/-- `MemoryDB.update_memory` (lines 294-345): raises `ValueError` on empty
content; computes `new_version = MAX(version)+1`; the transactional
`UPDATE ... WHERE id = ? AND is_deleted = 0` hits no row for a missing or
soft-deleted record, in which case the method returns `False` with nothing
written; otherwise it rewrites the record's content/`updated_at` and
appends the new version row. -/
def update_memory (db : DB) (memory_id : Nat) (content : Content)
    (changed_by : String) (change_reason : Option String) :
    Except PyError (DB × Bool) :=
  if content.isEmpty then
    .error (.valueError "更新内容不能为空")
  else
    let new_version := maxVersion db memory_id + 1
    if db.memories.any (fun m => m.id == memory_id && !m.is_deleted) then
      let memories := db.memories.map (fun m =>
        if m.id == memory_id && !m.is_deleted then
          { m with content := content, updated_at := db.now }
        else m)
      let ver : VersionRow :=
        { id := db.nextVersionId, memory_id := memory_id, version := new_version,
          content := content, changed_by := changed_by,
          change_reason := change_reason, created_at := db.now }
      .ok ({ db with
              memories := memories,
              versions := db.versions ++ [ver],
              nextVersionId := db.nextVersionId + 1,
              now := db.now + 1 }, true)
    else
      .ok (db, false)

/-- `MemoryDB.get_versions` (lines 347-372): all versions of one record,
`ORDER BY version ASC`. -/
def get_versions (db : DB) (memory_id : Nat) : List VersionRow :=
  insSort (fun a b => a.version ≤ b.version) (versionsOf db memory_id)

/-- `MemoryDB.restore_version` (lines 374-397): look the version row up by
its primary-key id; `False` if absent; otherwise re-apply its content as a
fresh `update_memory` with `changed_by = 'system'`. -/
def restore_version (db : DB) (version_id : Nat) : Except PyError (DB × Bool) :=
  match db.versions.find? (fun v => v.id == version_id) with
  | none => .ok (db, false)
  | some row =>
      update_memory db row.memory_id row.content "system"
        (some ("Restored from version " ++ toString version_id))

/-- `VersioningService.rollback_to_version` (`src/src/services/versioning.py`
lines 186-207): search the record's history for the target version number;
`False` if not found, otherwise `restore_version` on that row's id. -/
def rollback_to_version (db : DB) (memory_id : Nat) (version : Nat) :
    Except PyError (DB × Bool) :=
  match (get_versions db memory_id).find? (fun v => v.version == version) with
  | none => .ok (db, false)
  | some target => restore_version db target.id

/-- `MemoryDB.delete_memory` (lines 563-582).  The `permanent=True` branch
transactionally deletes the record's version rows and then the record row,
returning whether the record row existed.  The soft-delete branch executes
`cursor.execute(...)` with the local name `cursor` never assigned on that
path (it is only bound inside the `permanent` branch), so Python raises
`UnboundLocalError` before any SQL runs: the store is untouched. -/
def delete_memory (db : DB) (memory_id : Nat) (permanent : Bool) :
    Except PyError (DB × Bool) :=
  if permanent then
    let existed := db.memories.any (fun m => m.id == memory_id)
    .ok ({ db with
            versions := db.versions.filter (fun v => ¬ v.memory_id == memory_id),
            memories := db.memories.filter (fun m => ¬ m.id == memory_id) },
         existed)
  else
    .error (.unboundLocalError "cursor")

/-!
## Persistence Queue (`src/src/services/persistence.py`)

The service holds an in-process FIFO queue of pending-write descriptors.
Sequential executions (one caller, no background thread interleaving) are
modelled; `datetime.now()` timestamps are drawn from the store's logical
clock.
-/

/-- A pending-write descriptor as placed on the queue by `queue_save`
(the `memory_type` / `content` / kwargs dict / capture timestamp). -/
structure QueueItem where
  memory_type : String
  content : Content
  session_id : Option String
  date : Option String
  importance : Int
  tags : Option (List String)
  timestamp : Nat
  deriving Repr, DecidableEq

/-- State of a `PersistenceService`: the underlying store, the FIFO queue,
its configured capacity and the service counters. -/
structure PersistenceState where
  db : DB
  queue : List QueueItem
  max_queue_size : Nat
  total_queues : Nat
  flush_count : Nat
  error_count : Nat
  deriving Repr, DecidableEq

/-- The batch-save loop inside `force_flush`: save each drained item in
order; on the first store error stop (the Python `for` is aborted by the
exception), keeping the records already persisted.  Returns the store
after the successful saves, the number of items persisted (`flushed`) and
the error, if any. -/
def flushLoop (db : DB) : List QueueItem → DB × Nat × Option PyError
  | [] => (db, 0, none)
  | item :: rest =>
      match save_memory db item.memory_type item.content item.session_id
          item.date item.importance item.tags with
      | .ok (db1, _) =>
          let r := flushLoop db1 rest
          (r.1, r.2.1 + 1, r.2.2)
      | .error e => (db, 0, some e)

/-- `PersistenceService.force_flush` (lines 165-205): drain the whole queue
with `get_nowait`, batch-save the drained items in enqueue order; on
success bump `flush_count`; if a save raised, bump `error_count` and
re-enqueue every drained item (the already-persisted ones included —
at-least-once semantics).  Returns the count of items actually persisted. -/
def force_flush (s : PersistenceState) : PersistenceState × Nat :=
  let items := s.queue
  if items.isEmpty then
    ({ s with queue := [] }, 0)
  else
    let r := flushLoop s.db items
    match r.2.2 with
    | none =>
        ({ s with db := r.1, queue := [], flush_count := s.flush_count + r.2.1 }, r.2.1)
    | some _ =>
        ({ s with db := r.1, queue := items, error_count := s.error_count + 1 }, r.2.1)

/-- `PersistenceService.queue_save` (lines 128-163): if the queue has
reached its configured capacity, trigger an immediate synchronous
`force_flush` first (backpressure); then enqueue the descriptor with a
fresh capture timestamp and return `True` (`Queue.put` on an unbounded
`queue.Queue` does not fail). -/
def queue_save (s : PersistenceState) (memory_type : String) (content : Content)
    (session_id : Option String) (date : Option String)
    (importance : Int) (tags : Option (List String)) :
    PersistenceState × Bool :=
  let s1 := if s.queue.length ≥ s.max_queue_size then (force_flush s).1 else s
  let item : QueueItem :=
    { memory_type := memory_type, content := content, session_id := session_id,
      date := date, importance := importance, tags := tags,
      timestamp := s1.db.now }
  ({ s1 with queue := s1.queue ++ [item], total_queues := s1.total_queues + 1 }, true)

/-- Driver: a sequence of `queue_save` calls, one per listed descriptor
(each call re-captures its own timestamp). -/
def queueSaveAll (s : PersistenceState) : List QueueItem → PersistenceState
  | [] => s
  | item :: rest =>
      queueSaveAll (queue_save s item.memory_type item.content item.session_id
        item.date item.importance item.tags).1 rest

/-!
## Backup Manager (`src/src/services/backup.py`)

`BackupService` touches only the `backups` table and the file system, so
its state is modelled separately: the backup catalog (the `backups`
table), the file system as a path-to-bytes map plus the set of paths whose
`os.unlink` fails (OS errors), the live store path and the backup
directory.  The MD5 digest is a parameter `digest` of the functions that
compute checksums.
-/

/-- One row of the `backups` table. -/
structure BackupRow where
  id : Nat
  backup_type : String
  file_path : String
  size_bytes : Option Nat
  checksum : Option String
  status : String
  description : Option String
  created_at : Nat
  deriving Repr, DecidableEq

/-- The file system seen by the backup service: file contents by path, and
the paths whose deletion raises an `OSError`. -/
structure FileSys where
  files : List (String × String)
  undeletable : List String
  deriving Repr, DecidableEq

/-- `os.path.exists`. -/
def FileSys.exists (fs : FileSys) (path : String) : Bool :=
  fs.files.any (fun e => e.1 == path)

/-- Read a file's bytes (`open(path,'rb').read()`), `none` when missing. -/
def FileSys.read (fs : FileSys) (path : String) : Option String :=
  (fs.files.find? (fun e => e.1 == path)).map (·.2)

/-- Write bytes to a path, replacing any previous content
(`shutil.copy2` destination side). -/
def FileSys.write (fs : FileSys) (path : String) (data : String) : FileSys :=
  { fs with files := fs.files.filter (fun e => ¬ e.1 == path) ++ [(path, data)] }

/-- `os.unlink` on a deletable path. -/
def FileSys.unlink (fs : FileSys) (path : String) : FileSys :=
  { fs with files := fs.files.filter (fun e => ¬ e.1 == path) }

/-- State of a `BackupService`: the backup catalog with its next row id,
the file system, the live store path, the backup directory and the logical
clock used for timestamp-named backup files. -/
structure BackupState where
  catalog : List BackupRow
  nextBackupId : Nat
  fs : FileSys
  db_path : String
  backup_dir : String
  now : Nat
  deriving Repr, DecidableEq

/-- Timestamp-named backup path (`_generate_backup_filename` plus the
`.db` suffix under `backup_dir`). -/
def backupPath (bs : BackupState) : String :=
  bs.backup_dir ++ "/backup_" ++ toString bs.now ++ ".db"

/-- `BackupService.create_backup` (lines 62-118): copy the live store file
to a timestamp-named path, compute its checksum and size, insert a
`completed` catalog row and return its id.  If the copy fails (live file
missing), insert a `failed` row whose description is the error message and
re-raise.  The failure path mutates the catalog *and* raises, so the
result is the new state paired with `Except`. -/
def create_backup (digest : String → String) (bs : BackupState)
    (backup_type : String) (description : Option String) :
    BackupState × Except PyError Nat :=
  let backup_path := backupPath bs
  match bs.fs.read bs.db_path with
  | some data =>
      let fs1 := bs.fs.write backup_path data
      let checksum := digest data
      let size_bytes := data.length
      let row : BackupRow :=
        { id := bs.nextBackupId, backup_type := backup_type,
          file_path := backup_path, size_bytes := some size_bytes,
          checksum := some checksum, status := "completed",
          description := description, created_at := bs.now }
      ({ bs with
          fs := fs1, catalog := bs.catalog ++ [row],
          nextBackupId := bs.nextBackupId + 1, now := bs.now + 1 },
       .ok bs.nextBackupId)
  | none =>
      let row : BackupRow :=
        { id := bs.nextBackupId, backup_type := backup_type,
          file_path := backup_path, size_bytes := none, checksum := none,
          status := "failed",
          description := some ("No such file or directory: " ++ bs.db_path),
          created_at := bs.now }
      ({ bs with
          catalog := bs.catalog ++ [row],
          nextBackupId := bs.nextBackupId + 1, now := bs.now + 1 },
       .error (.valueError ("No such file or directory: " ++ bs.db_path)))

/-- A `threading.Lock`: just its locked flag. -/
structure PyLock where
  locked : Bool
  deriving Repr, DecidableEq

/-- A freshly constructed `threading.Lock()` is unlocked. -/
def PyLock.new : PyLock := { locked := false }

/-- `Lock.acquire(timeout=...)`: succeeds immediately on an unlocked lock;
on a locked lock the caller would block until the timeout and get `False`
(no other thread exists in the sequential model to release it). -/
def PyLock.acquire (l : PyLock) : Bool × PyLock :=
  if l.locked then (false, l) else (true, { locked := true })

/-- `BackupService.create_backup_with_lock` (lines 120-145): constructs a
*fresh local* `threading.Lock()`, acquires it with the given timeout, runs
`create_backup` and releases; raises `TimeoutError` when acquisition
fails.  The timeout argument is kept to mirror the signature even though
the model (like the code) never consults it on the success path. -/
def create_backup_with_lock (digest : String → String) (bs : BackupState)
    (backup_type : String) (description : Option String) (timeout : Nat) :
    BackupState × Except PyError Nat :=
  let lock := PyLock.new
  let a := lock.acquire
  if a.1 then
    create_backup digest bs backup_type description
  else
    (bs, .error (.valueError ("TimeoutError: 获取备份锁超时 " ++ toString timeout)))

/-- Python tuple-unpacking of a *string* into three names, as executed by
`backup_path, expected_checksum, status = row[0]` in
`BackupService.restore_backup` (line 168): a string iterates over its
characters, so the unpack succeeds only when the string has exactly three
characters, and raises `ValueError` otherwise. -/
def unpack3 (s : String) : Except PyError (String × String × String) :=
  match s.toList with
  | [a, b, c] => .ok (a.toString, b.toString, c.toString)
  | l =>
      if l.length > 3 then .error (.valueError "too many values to unpack (expected 3)")
      else .error (.valueError "not enough values to unpack (expected 3)")

/-- `BackupService.restore_backup` (lines 147-204), transcribed faithfully:
fetch `(file_path, checksum, status)` of the catalog row — but the code
unpacks `row[0]` (the `file_path` string alone) into the three names; on
the branches after that it checks the status, the file's existence, the
recomputed checksum (the mismatch log line references the undefined names
`actual` / `expected`, a `NameError`), and only then closes the handle,
copies the backup over the live path and reconnects. -/
def BackupService.restore_backup (digest : String → String) (bs : BackupState)
    (backup_id : Nat) : Except PyError (BackupState × Bool) :=
  match bs.catalog.find? (fun b => b.id == backup_id) with
  | none => .ok (bs, false)
  | some row =>
      match unpack3 row.file_path with
      | .error e => .error e
      | .ok (backup_path, expected_checksum, status) =>
          if ¬ status = "completed" then .ok (bs, false)
          else if ¬ bs.fs.exists backup_path then .ok (bs, false)
          else
            match bs.fs.read backup_path with
            | none => .ok (bs, false)
            | some data =>
                if ¬ digest data = expected_checksum then
                  .error (.unboundLocalError "name 'actual' is not defined")
                else
                  .ok ({ bs with fs := bs.fs.write bs.db_path data }, true)

/-- The `backup_type` scope filter of `cleanup_old_backups`
(`WHERE ... AND backup_type = ?` when a type is given). -/
def inScopeB (backup_type : Option String) (b : BackupRow) : Bool :=
  match backup_type with
  | some ty => b.backup_type == ty
  | none => true

/-- The `ORDER BY created_at DESC` selection inside `cleanup_old_backups`:
the ids of the `keep_count` most recently created in-scope backups. -/
def keepIds (catalog : List BackupRow) (keep_count : Nat) : List Nat :=
  ((insSort (fun a b => b.created_at ≤ a.created_at) catalog).take keep_count).map (·.id)

/-- The deletion loop of `cleanup_old_backups`: for each doomed backup, if
its file exists it is unlinked — an `OSError` there (an undeletable path)
is caught, logged and the whole iteration skipped, so the catalog row
survives; otherwise the catalog row is deleted and the counter bumped. -/
def cleanupLoop (fs : FileSys) (catalog : List BackupRow) (deleted : Nat) :
    List (Nat × String) → FileSys × List BackupRow × Nat
  | [] => (fs, catalog, deleted)
  | (bid, path) :: rest =>
      if fs.exists path then
        if path ∈ fs.undeletable then
          cleanupLoop fs catalog deleted rest
        else
          cleanupLoop (fs.unlink path) (catalog.filter (fun b => ¬ b.id == bid))
            (deleted + 1) rest
      else
        cleanupLoop fs (catalog.filter (fun b => ¬ b.id == bid)) (deleted + 1) rest

/-- `BackupService.cleanup_old_backups` (lines 308-374): select the
in-scope backups (filtered by `backup_type` when given) whose id is *not*
among the `keep_count` most recently created in-scope backups — the SQL
subquery carries no `status` filter — ordered oldest first, then run the
deletion loop over their `(id, file_path)` pairs.  Returns the number of
backups deleted. -/
def cleanup_old_backups (bs : BackupState) (keep_count : Nat)
    (backup_type : Option String) : BackupState × Nat :=
  let scopedRows := bs.catalog.filter (inScopeB backup_type)
  let keep := keepIds scopedRows keep_count
  let to_delete :=
    (insSort (fun a b => a.created_at ≤ b.created_at)
        (scopedRows.filter (fun b => ¬ b.id ∈ keep))).map (fun b => (b.id, b.file_path))
  let r := cleanupLoop bs.fs bs.catalog 0 to_delete
  ({ bs with fs := r.1, catalog := r.2.1 }, r.2.2)

/-!
## Basic lemmas about the model
-/

theorem mem_insertLe {α : Type} (le : α → α → Bool) (x a : α) (l : List α) :
    a ∈ insertLe le x l ↔ a = x ∨ a ∈ l := by
  induction l with
  | nil => simp [insertLe]
  | cons y ys ih =>
      simp only [insertLe]
      split
      · simp
      · simp [ih]
        tauto

theorem mem_insSort {α : Type} (le : α → α → Bool) (a : α) (l : List α) :
    a ∈ insSort le l ↔ a ∈ l := by
  induction l with
  | nil => simp [insSort]
  | cons x xs ih => simp [insSort, mem_insertLe, ih]

theorem insertLe_of_forall_le {α : Type} (le : α → α → Bool) (x : α) (l : List α)
    (h : ∀ y ∈ l, le x y = true) : insertLe le x l = x :: l := by
  cases l with
  | nil => rfl
  | cons y ys => simp [insertLe, h y (by simp)]

/-- Insertion sort leaves a list untouched when it is already pairwise
ordered by the comparison. -/
theorem insSort_eq_self_of_pairwise {α : Type} (le : α → α → Bool) (l : List α)
    (h : l.Pairwise (fun a b => le a b = true)) : insSort le l = l := by
  induction l with
  | nil => rfl
  | cons x xs ih =>
      rcases List.pairwise_cons.mp h with ⟨hx, hxs⟩
      simp only [insSort, ih hxs]
      exact insertLe_of_forall_le le x xs hx

theorem foldl_max_append (l : List VersionRow) (x : VersionRow) (i : Nat) :
    (l ++ [x]).foldl (fun m v => max m v.version) i =
      max (l.foldl (fun m v => max m v.version) i) x.version := by
  rw [List.foldl_append]
  rfl

/-!
## C2: creation rejects invalid input, leaving the store untouched

In the source every validation check of `save_memory` runs before the
database is even touched; correspondingly an `Except.error` result of the
model carries the store unchanged by construction.
-/

/-- C2.  If the content is empty, the kind is not one of
session/daily/longterm, or the importance lies outside `[0,10]`, then
`save_memory` fails with the validation error (Python `ValueError`, the
spec's `ValidationError`), and — the result being an error — no record row
and no version row is inserted.  In particular kind `longterm` with
importance `12` is rejected (see the witness). -/
theorem save_memory_invalid_rejected (db : DB) (memory_type : String)
    (content : Content) (session_id : Option String) (date : Option String)
    (importance : Int) (tags : Option (List String))
    (h : content = [] ∨
      ¬ (memory_type = "session" ∨ memory_type = "daily" ∨ memory_type = "longterm") ∨
      importance < 0 ∨ importance > 10) :
    ∃ msg, save_memory db memory_type content session_id date importance tags =
      Except.error (.valueError msg) := by
  unfold save_memory
  split
  · exact ⟨_, rfl⟩
  · split
    · exact ⟨_, rfl⟩
    · split
      · exact ⟨_, rfl⟩
      · rename_i h1 h2 h3
        exfalso
        rcases h with h | h | h | h
        · exact h1 (by simp [h, List.isEmpty_iff])
        · exact h (not_not.mp h2)
        · exact h3 (Or.inl h)
        · exact h3 (Or.inr h)

/-- Witness for C2: creating a `longterm` record with content
`{"title": "x"}` and importance `12` fails with a `ValueError`. -/
theorem save_memory_invalid_rejected_witness :
    ∃ msg, save_memory DB.empty "longterm" [("title", "x")] none none 12 none =
      Except.error (.valueError msg) :=
  save_memory_invalid_rejected DB.empty "longterm" [("title", "x")] none none 12 none
    (by right; right; right; decide)

/-!
## C3: update of a missing or soft-deleted record
-/

/-- C3.  If no live record with the given id exists (every row with that id
is soft-deleted, or there is none), `update_memory` with non-empty content
reports failure (`False`, the spec's `NotFoundError`) and returns the store
— in particular the Version Ledger — unchanged. -/
theorem update_memory_not_found (db : DB) (memory_id : Nat) (content : Content)
    (changed_by : String) (change_reason : Option String)
    (hc : content ≠ [])
    (hno : ∀ m ∈ db.memories, m.id = memory_id → m.is_deleted = true) :
    update_memory db memory_id content changed_by change_reason =
      Except.ok (db, false) := by
  unfold update_memory
  have hempty : content.isEmpty = false := by
    simp [List.isEmpty_iff, hc]
  rw [if_neg (by simp [hempty])]
  have hany : (db.memories.any (fun m => m.id == memory_id && !m.is_deleted)) = false := by
    rw [List.any_eq_false]
    intro m hm
    simp only [Bool.and_eq_true, beq_iff_eq, Bool.not_eq_true', not_and]
    intro hid
    simp [hno m hm hid]
  rw [if_neg (by simp [hany])]

/-- Witness for C3: updating the nonexistent id `999` on the empty store
fails and leaves the (empty) Version Ledger unchanged. -/
theorem update_memory_not_found_witness :
    update_memory DB.empty 999 [("a", "b")] "user" none = Except.ok (DB.empty, false) :=
  update_memory_not_found DB.empty 999 [("a", "b")] "user" none
    (by decide) (by intro m hm; simp [DB.empty] at hm)

/-!
## C7: create followed by read
-/

/-- Well-formedness of the store as produced by the engine itself: every
record row id and every version's owning-record id lies below the next
`AUTOINCREMENT` record id.  (SQLite guarantees this for row ids it has
handed out.) -/
def WFids (db : DB) : Prop :=
  (∀ m ∈ db.memories, m.id < db.nextMemoryId) ∧
  (∀ v ∈ db.versions, v.memory_id < db.nextMemoryId)

/-- C7.  On valid input (non-empty content, legal kind, importance in
`[0,10]`), `save_memory` succeeds with the fresh id, a `get_memory` of that
id returns exactly the submitted content, and the record's Version Ledger
holds exactly one version — `version = 1`, `changed_by = "system"`, whose
content is also the submitted content. -/
theorem create_then_read (db : DB) (memory_type : String) (content : Content)
    (session_id : Option String) (date : Option String) (importance : Int)
    (tags : Option (List String))
    (hwf : WFids db)
    (hc : content ≠ [])
    (ht : memory_type = "session" ∨ memory_type = "daily" ∨ memory_type = "longterm")
    (hi : 0 ≤ importance ∧ importance ≤ 10) :
    ∃ db1, save_memory db memory_type content session_id date importance tags =
        Except.ok (db1, db.nextMemoryId) ∧
      (get_memory db1 db.nextMemoryId).map (fun v => v.content) = some content ∧
      ∃ ver : VersionRow, get_versions db1 db.nextMemoryId = [ver] ∧
        ver.version = 1 ∧ ver.changed_by = "system" ∧ ver.content = content := by
  have hempty : content.isEmpty = false := by simp [List.isEmpty_iff, hc]
  unfold save_memory
  rw [if_neg (by simp [hempty]), if_neg (not_not_intro ht),
    if_neg (by push_neg; omega)]
  refine ⟨_, rfl, ?_, ?_⟩
  · unfold get_memory
    rw [List.find?_append]
    have h1 : db.memories.find?
        (fun m => m.id == db.nextMemoryId && !m.is_deleted) = none := by
      rw [List.find?_eq_none]
      intro m hm
      have := hwf.1 m hm
      simp only [Bool.and_eq_true, beq_iff_eq, not_and]
      intro hid
      omega
    rw [h1]
    simp [MemoryRow.toView]
  · refine ⟨{
      id := db.nextVersionId, memory_id := db.nextMemoryId, version := 1,
      content := content, changed_by := "system",
      change_reason := some "Initial creation", created_at := db.now }, ?_, rfl, rfl, rfl⟩
    unfold get_versions versionsOf
    simp only
    rw [List.filter_append]
    have h2 : db.versions.filter
        (fun v => v.memory_id == db.nextMemoryId) = [] := by
      rw [List.filter_eq_nil_iff]
      intro v hv
      have := hwf.2 v hv
      simp only [beq_iff_eq]
      omega
    rw [h2]
    simp [insSort, insertLe]

/-- Witness for C7: creating a `session` record with content
`{"k": "v"}` on the empty store and reading id 1 back. -/
theorem create_then_read_witness :
    ∃ db1, save_memory DB.empty "session" [("k", "v")] (some "s1") none 3 none =
        Except.ok (db1, DB.empty.nextMemoryId) ∧
      (get_memory db1 DB.empty.nextMemoryId).map (fun v => v.content) =
        some [("k", "v")] ∧
      ∃ ver : VersionRow, get_versions db1 DB.empty.nextMemoryId = [ver] ∧
        ver.version = 1 ∧ ver.changed_by = "system" ∧ ver.content = [("k", "v")] :=
  create_then_read DB.empty "session" [("k", "v")] (some "s1") none 3 none
    (by constructor <;> (intro x hx; simp [DB.empty] at hx))
    (by decide) (by left; rfl) (by constructor <;> decide)

/-!
## C10: `create_backup_with_lock` is `create_backup`
-/

/-- C10.  `create_backup_with_lock` acquires a *freshly constructed local*
lock, so acquisition always succeeds immediately and the `TimeoutError`
branch is dead code: for every store state, backup type, description and
timeout the call is behaviorally identical to a plain `create_backup` —
in particular it provides no mutual exclusion between backup creations,
since it is observationally the unlocked function. -/
theorem create_backup_with_lock_eq_create_backup (digest : String → String)
    (bs : BackupState) (backup_type : String) (description : Option String)
    (timeout : Nat) :
    create_backup_with_lock digest bs backup_type description timeout =
      create_backup digest bs backup_type description := rfl

/-!
## C4: soft delete crashes on an unbound local; permanent delete works

The soft-delete branch of `MemoryDB.delete_memory` reads the local name
`cursor`, which is only ever assigned inside the `permanent` branch, so
CPython raises `UnboundLocalError` there before any SQL executes.
-/

/-- A live record row (id 1): part of the concrete failing input for the
soft-delete claim. -/
def exampleRecordRow : MemoryRow :=
  { id := 1, memory_type := "longterm", session_id := none, date := none,
    content := [("title", "x")], importance := 5, tags := none,
    created_at := 0, updated_at := 0, is_deleted := false }

/-- The initial version row of `exampleRecordRow`. -/
def exampleVersionRow : VersionRow :=
  { id := 1, memory_id := 1, version := 1, content := [("title", "x")],
    changed_by := "system", change_reason := some "Initial creation",
    created_at := 0 }

/-- The concrete store holding live record 1 with its initial version. -/
def exampleDb : DB :=
  { memories := [exampleRecordRow], versions := [exampleVersionRow],
    nextMemoryId := 2, nextVersionId := 2, now := 1 }

/-- C4 (code bug).  On a store holding live record 1,
`delete_memory 1 permanent:=false` raises `UnboundLocalError` on the
unassigned local `cursor` instead of soft-deleting — the record is still
returned by `get_memory` afterwards-in-spirit since the store is untouched
— while `delete_memory 1 permanent:=true` does remove the record row and
all its version rows as specified. -/
theorem delete_memory_soft_crashes :
    delete_memory exampleDb 1 false =
        Except.error (.unboundLocalError "cursor") ∧
      (∃ db', delete_memory exampleDb 1 true = Except.ok (db', true) ∧
        db'.memories = [] ∧ db'.versions = []) := by
  refine ⟨rfl, ⟨{ exampleDb with memories := [], versions := [] }, rfl, rfl, rfl⟩⟩

/-!
## C1: creation followed by N successful updates
-/

/-- Driver for C1: a sequence of `update_memory` calls on one record, all
required to succeed (`True` returned). -/
def applyUpdates (db : DB) (memory_id : Nat) : List Content → Except PyError DB
  | [] => .ok db
  | c :: rest =>
      match update_memory db memory_id c "user" none with
      | .ok (db1, true) => applyUpdates db1 memory_id rest
      | .ok (_, false) => .error (.valueError "update reported failure")
      | .error e => .error e

/-- The running invariant of one record: a live row whose current content
is `c`, and a Version Ledger for it whose version numbers are exactly the
gap-free sequence `1..k` in table order. -/
def RecInv (db : DB) (mid : Nat) (k : Nat) (c : Content) : Prop :=
  (∃ row, db.memories.find? (fun m => m.id == mid && !m.is_deleted) = some row ∧
    row.content = c) ∧
  (versionsOf db mid).map (fun v => v.version) = List.range' 1 k

theorem maxVersion_of_range (db : DB) (mid k : Nat)
    (h : (versionsOf db mid).map (fun v => v.version) = List.range' 1 k) :
    maxVersion db mid = k := by
  have hfold : ∀ n : Nat, (List.range' 1 n).foldl max 0 = n := by
    intro n
    induction n with
    | zero => rfl
    | succ m ih =>
        rw [List.range'_1_concat 1 m, List.foldl_append]
        simp [ih]
        omega
  have : maxVersion db mid =
      ((versionsOf db mid).map (fun v => v.version)).foldl max 0 := by
    rw [List.foldl_map]
    rfl
  rw [this, h, hfold]

/-- The `UPDATE ... WHERE id = ? AND is_deleted = 0` row rewrite commutes
with the live-row lookup: the found row is the old one with its content
and `updated_at` replaced. -/
theorem find?_update (l : List MemoryRow) (mid : Nat) (c : Content) (t : Nat) :
    (l.map (fun m => if m.id == mid && !m.is_deleted then
        { m with content := c, updated_at := t } else m)).find?
      (fun m => m.id == mid && !m.is_deleted) =
    (l.find? (fun m => m.id == mid && !m.is_deleted)).map
      (fun m => if m.id == mid && !m.is_deleted then
        { m with content := c, updated_at := t } else m) := by
  rw [List.find?_map]
  have hpf : ((fun m : MemoryRow => m.id == mid && !m.is_deleted) ∘
      (fun m => if m.id == mid && !m.is_deleted then
        { m with content := c, updated_at := t } else m)) =
      (fun m : MemoryRow => m.id == mid && !m.is_deleted) := by
    funext m
    by_cases h : (m.id == mid && !m.is_deleted) = true
    · simp only [Function.comp_apply, if_pos h]
    · simp only [Function.comp_apply, if_neg h]
  rw [hpf]

/-- Exact result of `update_memory` on a live record with non-empty
content: the row rewrite plus the appended `max+1` version. -/
theorem update_memory_live_eq (db : DB) (mid : Nat) (c : Content)
    (cb : String) (cr : Option String) (hc : c ≠ [])
    (hany : db.memories.any (fun m => m.id == mid && !m.is_deleted) = true) :
    update_memory db mid c cb cr = Except.ok ({ db with
      memories := db.memories.map (fun m =>
        if m.id == mid && !m.is_deleted then
          { m with content := c, updated_at := db.now } else m),
      versions := db.versions ++ [{
        id := db.nextVersionId, memory_id := mid,
        version := maxVersion db mid + 1, content := c, changed_by := cb,
        change_reason := cr, created_at := db.now }],
      nextVersionId := db.nextVersionId + 1,
      now := db.now + 1 }, true) := by
  unfold update_memory
  rw [if_neg (by simp [List.isEmpty_iff, hc]), if_pos hany]

/-- One successful update preserves the record invariant, advancing the
ledger from `1..k` to `1..k+1` and the current content to the update's. -/
theorem RecInv.update (db : DB) (mid k : Nat) (c c' : Content)
    (hinv : RecInv db mid k c) (hc' : c' ≠ []) :
    ∃ db', update_memory db mid c' "user" none = Except.ok (db', true) ∧
      RecInv db' mid (k + 1) c' := by
  obtain ⟨⟨row, hfind, _⟩, hvers⟩ := hinv
  have hrow : (row.id == mid && !row.is_deleted) = true := by
    have h := List.find?_some hfind
    exact h
  have hany : db.memories.any (fun m => m.id == mid && !m.is_deleted) = true := by
    rw [List.any_eq_true]
    exact ⟨row, List.mem_of_find?_eq_some hfind, hrow⟩
  refine ⟨_, update_memory_live_eq db mid c' "user" none hc' hany, ?_, ?_⟩
  · refine ⟨{ row with content := c', updated_at := db.now }, ?_, rfl⟩
    show (db.memories.map (fun m => if m.id == mid && !m.is_deleted then
        { m with content := c', updated_at := db.now } else m)).find?
          (fun m => m.id == mid && !m.is_deleted) = some _
    rw [find?_update, hfind]
    have h12 := hrow
    rw [Bool.and_eq_true, beq_iff_eq, Bool.not_eq_true'] at h12
    simp [h12.1, h12.2]
  · show ((db.versions ++ [({
        id := db.nextVersionId, memory_id := mid,
        version := maxVersion db mid + 1, content := c', changed_by := "user",
        change_reason := none, created_at := db.now } : VersionRow)]).filter
          (fun v => v.memory_id == mid)).map (fun v => v.version) =
        List.range' 1 (k + 1)
    rw [List.filter_append, List.map_append]
    have hvers2 : (db.versions.filter (fun v => v.memory_id == mid)).map
        (fun v => v.version) = List.range' 1 k := hvers
    rw [hvers2, List.range'_1_concat 1 k]
    have hmax : maxVersion db mid = k := maxVersion_of_range db mid k hvers
    simp [hmax]
    omega

/-- `applyUpdates` runs a list of non-empty updates to completion,
extending the ledger by one version per update and ending with the last
update's content current. -/
theorem applyUpdates_ok (mid : Nat) (cs : List Content) :
    ∀ (db : DB) (k : Nat) (c : Content), (∀ x ∈ cs, x ≠ []) → RecInv db mid k c →
    ∃ db', applyUpdates db mid cs = Except.ok db' ∧
      RecInv db' mid (k + cs.length) (cs.getLastD c) := by
  induction cs with
  | nil =>
      intro db k c _ hinv
      exact ⟨db, rfl, by simpa using hinv⟩
  | cons x rest ih =>
      intro db k c hcs hinv
      obtain ⟨db1, hstep, hinv1⟩ := RecInv.update db mid k c x hinv (hcs x (by simp))
      obtain ⟨db', hrest, hinv'⟩ :=
        ih db1 (k + 1) x (fun y hy => hcs y (by simp [hy])) hinv1
      refine ⟨db', ?_, ?_⟩
      · unfold applyUpdates
        rw [hstep]
        exact hrest
      · have hlen : k + 1 + rest.length = k + (x :: rest).length := by
          simp; omega
        have hlast : rest.getLastD x = (x :: rest).getLastD c := by
          cases rest <;> simp [List.getLastD]
        rw [hlen, hlast] at hinv'
        exact hinv'

/-- When the per-record ledger versions are exactly `1..k` in table order,
the `ORDER BY version ASC` of `get_versions` is the identity. -/
theorem get_versions_eq_of_range (db : DB) (mid k : Nat)
    (h : (versionsOf db mid).map (fun v => v.version) = List.range' 1 k) :
    get_versions db mid = versionsOf db mid := by
  apply insSort_eq_self_of_pairwise
  have hp : ((versionsOf db mid).map (fun v => v.version)).Pairwise (· < ·) := by
    rw [h]
    exact List.pairwise_lt_range' 1 k
  rw [List.pairwise_map] at hp
  exact hp.imp (fun hab => by simp only [decide_eq_true_eq]; omega)

/-- Exact result of `save_memory` on valid input: the appended record row
and its initial version row. -/
theorem save_memory_valid_eq (db : DB) (memory_type : String) (content : Content)
    (session_id : Option String) (date : Option String) (importance : Int)
    (tags : Option (List String)) (hc : content ≠ [])
    (ht : memory_type = "session" ∨ memory_type = "daily" ∨ memory_type = "longterm")
    (hi : 0 ≤ importance ∧ importance ≤ 10) :
    save_memory db memory_type content session_id date importance tags =
      Except.ok ({ db with
        memories := db.memories ++ [{
          id := db.nextMemoryId, memory_type := memory_type,
          session_id := session_id, date := date, content := content,
          importance := importance,
          tags := match tags with
            | some ts => if ts.isEmpty then none
                else some (String.intercalate "," ts)
            | none => none,
          created_at := db.now, updated_at := db.now, is_deleted := false }],
        versions := db.versions ++ [{
          id := db.nextVersionId, memory_id := db.nextMemoryId, version := 1,
          content := content, changed_by := "system",
          change_reason := some "Initial creation", created_at := db.now }],
        nextMemoryId := db.nextMemoryId + 1,
        nextVersionId := db.nextVersionId + 1,
        now := db.now + 1 }, db.nextMemoryId) := by
  unfold save_memory
  rw [if_neg (by simp [List.isEmpty_iff, hc]), if_neg (not_not_intro ht),
    if_neg (by push_neg; omega)]

/-- A valid creation establishes the record invariant at ledger length 1. -/
theorem save_then_inv (db : DB) (memory_type : String) (content : Content)
    (session_id : Option String) (date : Option String) (importance : Int)
    (tags : Option (List String)) (hwf : WFids db) (hc : content ≠ [])
    (ht : memory_type = "session" ∨ memory_type = "daily" ∨ memory_type = "longterm")
    (hi : 0 ≤ importance ∧ importance ≤ 10) :
    ∃ db1, save_memory db memory_type content session_id date importance tags =
        Except.ok (db1, db.nextMemoryId) ∧ RecInv db1 db.nextMemoryId 1 content := by
  refine ⟨_, save_memory_valid_eq db memory_type content session_id date
    importance tags hc ht hi, ?_, ?_⟩
  · refine ⟨{
      id := db.nextMemoryId, memory_type := memory_type,
      session_id := session_id, date := date, content := content,
      importance := importance,
      tags := match tags with
        | some ts => if ts.isEmpty then none
            else some (String.intercalate "," ts)
        | none => none,
      created_at := db.now, updated_at := db.now, is_deleted := false }, ?_, rfl⟩
    show (db.memories ++ [_]).find?
      (fun m : MemoryRow => m.id == db.nextMemoryId && !m.is_deleted) = _
    rw [List.find?_append]
    have h1 : db.memories.find?
        (fun m => m.id == db.nextMemoryId && !m.is_deleted) = none := by
      rw [List.find?_eq_none]
      intro m hm
      have := hwf.1 m hm
      simp only [Bool.and_eq_true, beq_iff_eq, not_and]
      intro hid
      omega
    rw [h1]
    simp
  · show ((db.versions ++ [({
        id := db.nextVersionId, memory_id := db.nextMemoryId, version := 1,
        content := content, changed_by := "system",
        change_reason := some "Initial creation",
        created_at := db.now } : VersionRow)]).filter
          (fun v => v.memory_id == db.nextMemoryId)).map (fun v => v.version) =
        List.range' 1 1
    rw [List.filter_append]
    have h2 : db.versions.filter
        (fun v => v.memory_id == db.nextMemoryId) = [] := by
      rw [List.filter_eq_nil_iff]
      intro v hv
      have := hwf.2 v hv
      simp only [beq_iff_eq]
      omega
    rw [h2]
    simp

/-- C1.  Creating a record with valid input and then applying any sequence
of `N` successful non-empty updates leaves that record's Version Ledger
with exactly `N+1` entries whose version numbers are the gap-free strictly
increasing sequence `1..N+1` (version 1 written at creation, each update
appending `max(existing)+1`), and the record's current content equal to
the last update's content. -/
theorem create_then_updates (db : DB) (memory_type : String) (content : Content)
    (session_id : Option String) (date : Option String) (importance : Int)
    (tags : Option (List String)) (updates : List Content)
    (hwf : WFids db) (hc : content ≠ [])
    (ht : memory_type = "session" ∨ memory_type = "daily" ∨ memory_type = "longterm")
    (hi : 0 ≤ importance ∧ importance ≤ 10)
    (hu : ∀ u ∈ updates, u ≠ []) :
    ∃ db1 db2, save_memory db memory_type content session_id date importance tags =
        Except.ok (db1, db.nextMemoryId) ∧
      applyUpdates db1 db.nextMemoryId updates = Except.ok db2 ∧
      (get_versions db2 db.nextMemoryId).map (fun v => v.version) =
        List.range' 1 (updates.length + 1) ∧
      (get_memory db2 db.nextMemoryId).map (fun v => v.content) =
        some (updates.getLastD content) := by
  obtain ⟨db1, hsave, hinv1⟩ := save_then_inv db memory_type content session_id
    date importance tags hwf hc ht hi
  obtain ⟨db2, hupd, hinv2⟩ := applyUpdates_ok db.nextMemoryId updates db1 1
    content hu hinv1
  obtain ⟨⟨row, hfind, hrowc⟩, hvers⟩ := hinv2
  have hlen : 1 + updates.length = updates.length + 1 := by omega
  rw [hlen] at hvers
  refine ⟨db1, db2, hsave, hupd, ?_, ?_⟩
  · rw [get_versions_eq_of_range db2 db.nextMemoryId (updates.length + 1) hvers]
    exact hvers
  · unfold get_memory
    rw [hfind]
    simp [MemoryRow.toView, hrowc]

/-- Witness for C1: create a record with content `{"a": "1"}` and apply
two updates; the ledger versions are `[1, 2, 3]` and the current content
is the second update's. -/
theorem create_then_updates_witness :
    ∃ db1 db2, save_memory DB.empty "daily" [("a", "1")] none (some "2024-01-01")
        0 none = Except.ok (db1, DB.empty.nextMemoryId) ∧
      applyUpdates db1 DB.empty.nextMemoryId [[("a", "2")], [("a", "3")]] =
        Except.ok db2 ∧
      (get_versions db2 DB.empty.nextMemoryId).map (fun v => v.version) =
        List.range' 1 3 ∧
      (get_memory db2 DB.empty.nextMemoryId).map (fun v => v.content) =
        some [("a", "3")] := by
  have h := create_then_updates DB.empty "daily" [("a", "1")] none
    (some "2024-01-01") 0 none [[("a", "2")], [("a", "3")]]
    (by constructor <;> (intro x hx; simp [DB.empty] at hx))
    (by decide) (by right; left; rfl) (by constructor <;> decide)
    (by intro u hu; simp at hu; rcases hu with h | h <;> simp [h])
  simpa using h

/-!
## C5: rollback semantics
-/

theorem le_foldl_max (l : List VersionRow) :
    ∀ i : Nat, i ≤ l.foldl (fun m v => max m v.version) i := by
  induction l with
  | nil => intro i; exact le_refl i
  | cons x xs ih =>
      intro i
      exact le_trans (le_max_left i x.version) (ih (max i x.version))

/-- Whatever `update_memory` does — nothing, or appending one version —
no record's maximum version number decreases. -/
theorem maxVersion_le_update (db : DB) (m mid : Nat) (c : Content)
    (cb : String) (cr : Option String) (db' : DB) (b : Bool)
    (h : update_memory db m c cb cr = Except.ok (db', b)) :
    maxVersion db mid ≤ maxVersion db' mid := by
  unfold update_memory at h
  by_cases hce : c.isEmpty = true
  · rw [if_pos hce] at h
    cases h
  · rw [if_neg hce] at h
    by_cases hany : (db.memories.any fun m2 => m2.id == m && !m2.is_deleted) = true
    · rw [if_pos hany] at h
      simp only [Except.ok.injEq, Prod.mk.injEq] at h
      obtain ⟨h1, _⟩ := h
      rw [← h1]
      show maxVersion db mid ≤
        ((db.versions ++ [_]).filter (fun w : VersionRow => w.memory_id == mid)).foldl
          (fun (acc : Nat) (w : VersionRow) => max acc w.version) 0
      rw [List.filter_append, List.foldl_append]
      exact le_foldl_max _ (maxVersion db mid)
    · rw [if_neg hany] at h
      simp only [Except.ok.injEq, Prod.mk.injEq] at h
      obtain ⟨h1, _⟩ := h
      rw [← h1]

/-- In a table whose row ids are distinct, the primary-key lookup of a
member row finds exactly that row. -/
theorem find?_id_of_nodup (l : List VersionRow) (t : VersionRow)
    (hnd : (l.map (fun w => w.id)).Nodup) (ht : t ∈ l) :
    l.find? (fun w => w.id == t.id) = some t := by
  induction l with
  | nil => cases ht
  | cons x xs ih =>
      rcases List.mem_cons.mp ht with h | h
      · subst h
        simp [List.find?_cons]
      · have hx : (x.id == t.id) = false := by
          have hxid : x.id ∉ xs.map (fun w => w.id) :=
            (List.nodup_cons.mp hnd).1
          have htid : t.id ∈ xs.map (fun w => w.id) :=
            List.mem_map_of_mem _ h
          simp only [beq_eq_false_iff_ne, ne_eq]
          intro he
          rw [he] at hxid
          exact hxid htid
        rw [List.find?_cons, hx]
        exact ih (List.nodup_cons.mp hnd).2 h

/-- Reduction of `rollback_to_version` when the history search misses. -/
theorem rollback_eq_of_none (db : DB) (mid v : Nat)
    (hf : (get_versions db mid).find? (fun w => w.version == v) = none) :
    rollback_to_version db mid v = Except.ok (db, false) := by
  unfold rollback_to_version
  rw [hf]

/-- Reduction of `rollback_to_version` when the history search hits. -/
theorem rollback_eq_of_found (db : DB) (mid v : Nat) (t : VersionRow)
    (hf : (get_versions db mid).find? (fun w => w.version == v) = some t) :
    rollback_to_version db mid v = restore_version db t.id := by
  unfold rollback_to_version
  rw [hf]

/-- Reduction of `restore_version` when the primary-key lookup misses. -/
theorem restore_eq_of_none (db : DB) (vid : Nat)
    (hg : db.versions.find? (fun w => w.id == vid) = none) :
    restore_version db vid = Except.ok (db, false) := by
  unfold restore_version
  rw [hg]

/-- Reduction of `restore_version` when the primary-key lookup hits. -/
theorem restore_eq_of_found (db : DB) (vid : Nat) (r : VersionRow)
    (hg : db.versions.find? (fun w => w.id == vid) = some r) :
    restore_version db vid = update_memory db r.memory_id r.content "system"
      (some ("Restored from version " ++ toString vid)) := by
  unfold restore_version
  rw [hg]

/-- C5.  (i) `rollback_to_version` never decreases the record's maximum
version number.  (ii) If the target version number is absent from the
record's history, the rollback fails (`False`) with the store — and hence
the Version Ledger — unchanged.  (iii) If the history lookup finds the
target version `t` (its content non-empty, the record live, version row
ids distinct), the rollback succeeds and appends exactly one new version
whose content equals `t`'s content and whose version number is the
previous maximum plus one; history is extended, never rewritten. -/
theorem rollback_to_version_props (db : DB) (mid v : Nat) :
    (∀ db' b, rollback_to_version db mid v = Except.ok (db', b) →
      maxVersion db mid ≤ maxVersion db' mid) ∧
    ((get_versions db mid).find? (fun w => w.version == v) = none →
      rollback_to_version db mid v = Except.ok (db, false)) ∧
    (∀ t, (get_versions db mid).find? (fun w => w.version == v) = some t →
      t.content ≠ [] →
      db.memories.any (fun m => m.id == mid && !m.is_deleted) = true →
      (db.versions.map (fun w => w.id)).Nodup →
      ∃ db', rollback_to_version db mid v = Except.ok (db', true) ∧
        versionsOf db' mid = versionsOf db mid ++ [{
          id := db.nextVersionId, memory_id := mid,
          version := maxVersion db mid + 1, content := t.content,
          changed_by := "system",
          change_reason := some ("Restored from version " ++ toString t.id),
          created_at := db.now }] ∧
        maxVersion db' mid = maxVersion db mid + 1) := by
  refine ⟨?_, ?_, ?_⟩
  · intro db' b h
    cases hf : (get_versions db mid).find? (fun w => w.version == v) with
    | none =>
        rw [rollback_eq_of_none db mid v hf] at h
        simp only [Except.ok.injEq, Prod.mk.injEq] at h
        rw [← h.1]
    | some t =>
        rw [rollback_eq_of_found db mid v t hf] at h
        cases hg : db.versions.find? (fun w => w.id == t.id) with
        | none =>
            rw [restore_eq_of_none db t.id hg] at h
            simp only [Except.ok.injEq, Prod.mk.injEq] at h
            rw [← h.1]
        | some r =>
            rw [restore_eq_of_found db t.id r hg] at h
            exact maxVersion_le_update db r.memory_id mid r.content "system"
              (some ("Restored from version " ++ toString t.id)) db' b h
  · intro hf
    exact rollback_eq_of_none db mid v hf
  · intro t hf hc hlive hnd
    have htmem : t ∈ versionsOf db mid := by
      have h1 : t ∈ get_versions db mid := List.mem_of_find?_eq_some hf
      exact (mem_insSort _ t _).mp h1
    have htid : t.memory_id = mid := by
      have h2 := (List.mem_filter.mp htmem).2
      simpa using h2
    have htdb : t ∈ db.versions := (List.mem_filter.mp htmem).1
    have hfind : db.versions.find? (fun w => w.id == t.id) = some t :=
      find?_id_of_nodup db.versions t hnd htdb
    have hupd := update_memory_live_eq db mid t.content "system"
      (some ("Restored from version " ++ toString t.id)) hc hlive
    have hroll : rollback_to_version db mid v =
        update_memory db mid t.content "system"
          (some ("Restored from version " ++ toString t.id)) := by
      rw [rollback_eq_of_found db mid v t hf, restore_eq_of_found db t.id t hfind,
        htid]
    refine ⟨_, hroll.trans hupd, ?_, ?_⟩
    · show (db.versions ++ [_]).filter (fun w : VersionRow => w.memory_id == mid) = _
      rw [List.filter_append]
      unfold versionsOf
      simp
    · show ((db.versions ++ [_]).filter (fun w : VersionRow => w.memory_id == mid)).foldl
        (fun (acc : Nat) (w : VersionRow) => max acc w.version) 0 = maxVersion db mid + 1
      rw [List.filter_append]
      have hone : ([({
          id := db.nextVersionId, memory_id := mid,
          version := maxVersion db mid + 1, content := t.content,
          changed_by := "system",
          change_reason := some ("Restored from version " ++ toString t.id),
          created_at := db.now } : VersionRow)]).filter
            (fun w => w.memory_id == mid) = [{
          id := db.nextVersionId, memory_id := mid,
          version := maxVersion db mid + 1, content := t.content,
          changed_by := "system",
          change_reason := some ("Restored from version " ++ toString t.id),
          created_at := db.now }] := by simp
      rw [hone, List.foldl_append]
      show max (maxVersion db mid) (maxVersion db mid + 1) = maxVersion db mid + 1
      omega

/-- Second version row (version 2) for the rollback witness store. -/
def exampleVersionRowB : VersionRow :=
  { id := 2, memory_id := 1, version := 2, content := [("title", "y")],
    changed_by := "user", change_reason := none, created_at := 1 }

/-- A store with one live record (id 1) carrying two versions, used to
witness the rollback properties. -/
def exampleDb2 : DB :=
  { memories := [{ exampleRecordRow with content := [("title", "y")], updated_at := 1 }],
    versions := [exampleVersionRow, exampleVersionRowB],
    nextMemoryId := 2, nextVersionId := 3, now := 2 }

/-- Witness for C5: rolling record 1 back to version 1 appends a third
version carrying version 1's content; rolling back to the absent version 5
fails with the store unchanged. -/
theorem rollback_to_version_props_witness :
    (∃ db', rollback_to_version exampleDb2 1 1 = Except.ok (db', true) ∧
      versionsOf db' 1 = versionsOf exampleDb2 1 ++ [{
        id := exampleDb2.nextVersionId, memory_id := 1,
        version := maxVersion exampleDb2 1 + 1,
        content := exampleVersionRow.content, changed_by := "system",
        change_reason := some ("Restored from version " ++
          toString exampleVersionRow.id),
        created_at := exampleDb2.now }] ∧
      maxVersion db' 1 = maxVersion exampleDb2 1 + 1) ∧
    rollback_to_version exampleDb2 1 5 = Except.ok (exampleDb2, false) := by
  constructor
  · exact (rollback_to_version_props exampleDb2 1 1).2.2 exampleVersionRow
      (by decide) (by decide) (by decide) (by decide)
  · exact (rollback_to_version_props exampleDb2 1 5).2.1 (by decide)

/-!
## C6: queue then flush
-/

/-- The inputs `save_memory` accepts: non-empty content, legal kind,
importance within `[0,10]` — "no Store error occurs". -/
def ValidSave (memory_type : String) (content : Content) (importance : Int) : Prop :=
  content ≠ [] ∧
  (memory_type = "session" ∨ memory_type = "daily" ∨ memory_type = "longterm") ∧
  0 ≤ importance ∧ importance ≤ 10

/-- A queued descriptor whose save cannot fail. -/
def ValidItem (it : QueueItem) : Prop :=
  ValidSave it.memory_type it.content it.importance

/-- The stored record contents, in table order: the observable the
queue-persistence claims are about. -/
def contentsOf (db : DB) : List Content :=
  db.memories.map (fun m => m.content)

theorem contentsOf_save (db db1 : DB) (mid : Nat) (memory_type : String)
    (content : Content) (session_id : Option String) (date : Option String)
    (importance : Int) (tags : Option (List String))
    (h : save_memory db memory_type content session_id date importance tags =
      Except.ok (db1, mid)) :
    contentsOf db1 = contentsOf db ++ [content] := by
  unfold save_memory at h
  by_cases h1 : content.isEmpty = true
  · rw [if_pos h1] at h
    cases h
  · rw [if_neg h1] at h
    by_cases h2 : ¬ (memory_type = "session" ∨ memory_type = "daily" ∨
        memory_type = "longterm")
    · rw [if_pos h2] at h
      cases h
    · rw [if_neg h2] at h
      by_cases h3 : importance < 0 ∨ importance > 10
      · rw [if_pos h3] at h
        cases h
      · rw [if_neg h3] at h
        simp only [Except.ok.injEq, Prod.mk.injEq] at h
        rw [← h.1]
        show (db.memories ++ [_]).map (fun m : MemoryRow => m.content) = _
        rw [List.map_append]
        rfl

/-- Reduction of `flushLoop` over a descriptor whose save succeeds. -/
theorem flushLoop_cons (db db1 : DB) (mid : Nat) (it : QueueItem)
    (rest : List QueueItem)
    (hs : save_memory db it.memory_type it.content it.session_id it.date
      it.importance it.tags = Except.ok (db1, mid)) :
    flushLoop db (it :: rest) =
      ((flushLoop db1 rest).1, (flushLoop db1 rest).2.1 + 1,
        (flushLoop db1 rest).2.2) := by
  conv_lhs => rw [flushLoop]
  rw [hs]

/-- With every drained descriptor valid, the batch loop persists all of
them, in order, with no error. -/
theorem flushLoop_ok (items : List QueueItem) : ∀ db : DB,
    (∀ it ∈ items, ValidItem it) →
    ∃ db', flushLoop db items = (db', items.length, none) ∧
      contentsOf db' = contentsOf db ++ items.map (fun it => it.content) := by
  induction items with
  | nil =>
      intro db _
      exact ⟨db, rfl, by simp [contentsOf]⟩
  | cons it rest ih =>
      intro db hv
      have hvit : ValidItem it := hv it (by simp)
      have hsave := save_memory_valid_eq db it.memory_type it.content
        it.session_id it.date it.importance it.tags hvit.1 hvit.2.1
        ⟨hvit.2.2.1, hvit.2.2.2⟩
      obtain ⟨db', hrest, hcont⟩ := ih _ (fun y hy => hv y (by simp [hy]))
      refine ⟨db', ?_, ?_⟩
      · rw [flushLoop_cons db _ db.nextMemoryId it rest hsave, hrest]
        rfl
      · rw [hcont, contentsOf_save db _ db.nextMemoryId it.memory_type
          it.content it.session_id it.date it.importance it.tags hsave]
        simp

/-- `force_flush` with an all-valid queue: every drained item is persisted
in FIFO order, the queue ends empty, `flush_count` grows by the number
persisted, and that number is returned. -/
theorem force_flush_ok (s : PersistenceState)
    (hv : ∀ it ∈ s.queue, ValidItem it) :
    ∃ db', force_flush s = ({ s with
        db := db', queue := [],
        flush_count := s.flush_count + s.queue.length }, s.queue.length) ∧
      contentsOf db' = contentsOf s.db ++ s.queue.map (fun it => it.content) := by
  by_cases hq : s.queue.isEmpty = true
  · have hnil : s.queue = [] := by
      cases h : s.queue with
      | nil => rfl
      | cons a l => rw [h] at hq; cases hq
    refine ⟨s.db, ?_, by simp [hnil]⟩
    unfold force_flush
    rw [if_pos hq, hnil]
    simp
  · obtain ⟨db', hloop, hcont⟩ := flushLoop_ok s.queue s.db hv
    refine ⟨db', ?_, hcont⟩
    unfold force_flush
    rw [if_neg hq, hloop]

/-- One `queue_save` step: the enqueued descriptor lands at the tail, any
capacity-triggered flush first moves the whole pending queue into the
store, and nothing is ever dropped — the combined store-plus-queue
contents grow by exactly the new item. -/
theorem queue_save_step (s : PersistenceState) (it : QueueItem)
    (hq : ∀ x ∈ s.queue, ValidItem x) (hit : ValidItem it) :
    (∀ x ∈ (queue_save s it.memory_type it.content it.session_id it.date
        it.importance it.tags).1.queue, ValidItem x) ∧
    contentsOf (queue_save s it.memory_type it.content it.session_id it.date
        it.importance it.tags).1.db ++
      ((queue_save s it.memory_type it.content it.session_id it.date
        it.importance it.tags).1.queue.map (fun x => x.content)) =
      contentsOf s.db ++ s.queue.map (fun x => x.content) ++ [it.content] := by
  by_cases hfull : s.queue.length ≥ s.max_queue_size
  · obtain ⟨db', hff, hcont⟩ := force_flush_ok s hq
    have heq : queue_save s it.memory_type it.content it.session_id it.date
        it.importance it.tags = ({ s with
          db := db', queue := [{ it with timestamp := db'.now }],
          flush_count := s.flush_count + s.queue.length,
          total_queues := s.total_queues + 1 }, true) := by
      unfold queue_save
      rw [if_pos hfull, hff]
      rfl
    rw [heq]
    constructor
    · intro x hx
      simp only [List.mem_singleton] at hx
      subst hx
      exact hit
    · show contentsOf db' ++ [it.content] = _
      rw [hcont]
  · have heq : queue_save s it.memory_type it.content it.session_id it.date
        it.importance it.tags = ({ s with
          queue := s.queue ++ [{ it with timestamp := s.db.now }],
          total_queues := s.total_queues + 1 }, true) := by
      unfold queue_save
      rw [if_neg hfull]
    rw [heq]
    constructor
    · intro x hx
      simp only [List.mem_append, List.mem_singleton] at hx
      rcases hx with hx | hx
      · exact hq x hx
      · subst hx
        exact hit
    · show contentsOf s.db ++ (s.queue ++ [_]).map (fun x : QueueItem => x.content) = _
      rw [List.map_append, ← List.append_assoc]
      rfl

/-- Folding `queue_save` over a list of valid descriptors keeps every
queued descriptor valid and conserves the combined store-plus-queue
contents: no loss and no duplication, whatever capacity flushes fire. -/
theorem queueSaveAll_inv (items : List QueueItem) : ∀ s : PersistenceState,
    (∀ it ∈ s.queue, ValidItem it) → (∀ it ∈ items, ValidItem it) →
    (∀ it ∈ (queueSaveAll s items).queue, ValidItem it) ∧
    contentsOf (queueSaveAll s items).db ++
        ((queueSaveAll s items).queue.map (fun it => it.content)) =
      contentsOf s.db ++ s.queue.map (fun it => it.content) ++
        items.map (fun it => it.content) := by
  induction items with
  | nil =>
      intro s hq _
      exact ⟨by simpa [queueSaveAll] using hq, by simp [queueSaveAll]⟩
  | cons it rest ih =>
      intro s hq hv
      have hstep := queue_save_step s it hq (hv it (by simp))
      obtain ⟨ihq, ihc⟩ := ih (queue_save s it.memory_type it.content
        it.session_id it.date it.importance it.tags).1 hstep.1
        (fun y hy => hv y (by simp [hy]))
      rw [queueSaveAll]
      refine ⟨ihq, ?_⟩
      rw [ihc, hstep.2]
      simp [List.append_assoc]

/-- C6.  (a) With no Store error (every descriptor valid): starting from an
empty queue, `K` `queue_save` calls followed by one `force_flush` leave the
queue empty, return from that flush the count of items it persisted, and
grow the store by exactly the `K` submitted contents in enqueue (FIFO)
order — no loss, no duplication, even when capacity-triggered intermediate
flushes fire.  (b) A `queue_save` arriving at a queue at (or beyond) its
configured capacity forces a synchronous flush first and then admits the
item rather than dropping anything: the call reports success, the queue
afterwards holds exactly the new descriptor, and the whole former queue
has been persisted to the store. -/
theorem queue_saves_then_flush (s t : PersistenceState) (items : List QueueItem)
    (memory_type : String) (content : Content) (session_id : Option String)
    (date : Option String) (importance : Int) (tags : Option (List String))
    (hq : s.queue = []) (hv : ∀ it ∈ items, ValidItem it)
    (htq : ∀ it ∈ t.queue, ValidItem it)
    (htfull : t.queue.length ≥ t.max_queue_size) :
    ((force_flush (queueSaveAll s items)).1.queue = [] ∧
      (force_flush (queueSaveAll s items)).2 =
        (queueSaveAll s items).queue.length ∧
      contentsOf (force_flush (queueSaveAll s items)).1.db =
        contentsOf s.db ++ items.map (fun it => it.content)) ∧
    ((queue_save t memory_type content session_id date importance tags).2 = true ∧
      (queue_save t memory_type content session_id date importance tags).1.queue.map
        (fun it => (it.memory_type, it.content)) = [(memory_type, content)] ∧
      contentsOf (queue_save t memory_type content session_id date
        importance tags).1.db =
        contentsOf t.db ++ t.queue.map (fun it => it.content)) := by
  constructor
  · obtain ⟨hvq, hconserve⟩ := queueSaveAll_inv items s
      (by rw [hq]; intro x hx; cases hx) hv
    obtain ⟨db', hff, hcont⟩ := force_flush_ok (queueSaveAll s items) hvq
    rw [hff]
    refine ⟨rfl, rfl, ?_⟩
    show contentsOf db' = _
    rw [hcont, hconserve, hq]
    simp
  · obtain ⟨db', hff, hcont⟩ := force_flush_ok t htq
    have heq : queue_save t memory_type content session_id date importance tags =
        ({ t with
          db := db',
          queue := [{
            memory_type := memory_type, content := content,
            session_id := session_id, date := date, importance := importance,
            tags := tags, timestamp := db'.now }],
          flush_count := t.flush_count + t.queue.length,
          total_queues := t.total_queues + 1 }, true) := by
      unfold queue_save
      rw [if_pos htfull, hff]
      rfl
    rw [heq]
    exact ⟨rfl, rfl, hcont⟩

instance (memory_type : String) (content : Content) (importance : Int) :
    Decidable (ValidSave memory_type content importance) := by
  unfold ValidSave
  exact inferInstance

instance (it : QueueItem) : Decidable (ValidItem it) := by
  unfold ValidItem
  exact inferInstance

/-- A small valid pending-write descriptor for the queue witness. -/
def itemW (n : Nat) : QueueItem :=
  { memory_type := "session", content := [("i", toString n)],
    session_id := none, date := none, importance := 0, tags := none,
    timestamp := 0 }

/-- A persistence service over the empty store with capacity 2 and an
empty queue. -/
def persistW : PersistenceState :=
  { db := DB.empty, queue := [], max_queue_size := 2, total_queues := 0,
    flush_count := 0, error_count := 0 }

/-- A persistence service whose queue is exactly at capacity. -/
def persistFullW : PersistenceState :=
  { db := DB.empty, queue := [itemW 1, itemW 2], max_queue_size := 2,
    total_queues := 2, flush_count := 0, error_count := 0 }

/-- Witness for C6: three queued saves on a capacity-2 queue followed by a
flush persist exactly the three contents in order; a save into a full
queue flushes the two pending items and admits the new one. -/
theorem queue_saves_then_flush_witness :
    ((force_flush (queueSaveAll persistW [itemW 1, itemW 2, itemW 3])).1.queue = [] ∧
      contentsOf (force_flush (queueSaveAll persistW
        [itemW 1, itemW 2, itemW 3])).1.db =
        contentsOf persistW.db ++
          [itemW 1, itemW 2, itemW 3].map (fun it => it.content)) ∧
    ((queue_save persistFullW "session" [("k", "v")] none none 0 none).1.queue.map
        (fun it => (it.memory_type, it.content)) = [("session", [("k", "v")])] ∧
      contentsOf (queue_save persistFullW "session" [("k", "v")] none none
        0 none).1.db =
        contentsOf persistFullW.db ++
          persistFullW.queue.map (fun it => it.content)) := by
  have h := queue_saves_then_flush persistW persistFullW
    [itemW 1, itemW 2, itemW 3] "session" [("k", "v")] none none 0 none
    rfl (by decide) (by decide) (by decide)
  exact ⟨⟨h.1.1, h.1.2.2⟩, ⟨h.2.2.1, h.2.2.2⟩⟩

/-!
## C8: `restore_backup` crashes unpacking `row[0]`

`BackupService.restore_backup` executes
`backup_path, expected_checksum, status = row[0]` — `row[0]` is the
`file_path` *string*, and unpacking a string iterates its characters, so
any realistic path raises `ValueError: too many values to unpack` before
verification even starts; were the unpack fixed, the checksum-mismatch
branch would still raise `NameError` on the undefined log names
`actual`/`expected`, and both the mismatch and the file-missing case
merely `return False`.
-/

/-- A backup catalog holding one `completed` backup whose file exists and
whose recorded checksum matches the file's digest (`digest := id` here):
restore of this perfectly healthy backup is the failing input. -/
def backupStateW : BackupState :=
  { catalog := [{
      id := 1, backup_type := "manual",
      file_path := "data/backups/backup_1.db", size_bytes := some 4,
      checksum := some "data", status := "completed", description := none,
      created_at := 1 }],
    nextBackupId := 2,
    fs := { files := [("data/memory.db", "data"),
        ("data/backups/backup_1.db", "data")], undeletable := [] },
    db_path := "data/memory.db", backup_dir := "data/backups", now := 2 }

/-- C8 (code bug).  The backup file of catalog row 1 exists and its
recomputed digest equals the recorded checksum, so per the claim the
restore should verify and replace the live store — and a mismatch should
surface `VerificationError` distinctly from "file missing".  Instead the
tuple-unpack of `row[0]` raises `ValueError` for this (and every) existing
backup before any verification or copy, leaving the live store file
untouched. -/
theorem restore_backup_unpack_crash :
    backupStateW.fs.read "data/backups/backup_1.db" = some "data" ∧
    ((backupStateW.catalog.find? (fun b => b.id == 1)).map
      (fun b => b.checksum)) = some (some ((fun data => data) "data")) ∧
    BackupService.restore_backup (fun data => data) backupStateW 1 =
      Except.error (.valueError "too many values to unpack (expected 3)") := by
  refine ⟨rfl, rfl, rfl⟩

/-!
## C9: cleanup retention ignores backup status
-/

/-- A catalog with one older `completed` backup (id 1) and one newer
`failed` backup (id 2), both files present. -/
def backupStateCE : BackupState :=
  { catalog := [{
      id := 1, backup_type := "manual", file_path := "b1",
      size_bytes := some 1, checksum := some "c1", status := "completed",
      description := none, created_at := 1 },
    { id := 2, backup_type := "manual", file_path := "b2",
      size_bytes := some 1, checksum := some "c2", status := "failed",
      description := none, created_at := 2 }],
    nextBackupId := 3,
    fs := { files := [("b1", "x"), ("b2", "y")], undeletable := [] },
    db_path := "data/memory.db", backup_dir := "data/backups", now := 3 }

/-- Counterexample to C9 as stated.  With `keepCount = 1`, the single
`completed` backup — which is also the most recent completed one — is
backup 1, so the claim demands that exactly backup 1 be retained and
backup 2 be deleted.  The code's retention query carries no
`status = 'completed'` filter: it keeps the most recent backup regardless
of status, retaining the `failed` backup 2 and deleting completed backup 1
together with its file. -/
theorem cleanup_old_backups_counterexample :
    (backupStateCE.catalog.filter (fun b => b.status == "completed")).map
      (fun b => b.id) = [1] ∧
    backupStateCE.catalog.map (fun b => b.created_at) = [1, 2] ∧
    (cleanup_old_backups backupStateCE 1 none).1.catalog.map
      (fun b => b.id) = [2] ∧
    (cleanup_old_backups backupStateCE 1 none).2 = 1 ∧
    (cleanup_old_backups backupStateCE 1 none).1.fs.exists "b1" = false := by
  refine ⟨rfl, rfl, ?_, ?_, ?_⟩ <;> rfl

theorem insertLe_append {α : Type} (le : α → α → Bool) (x : α) (l : List α)
    (h : ∀ y ∈ l, le x y = false) : insertLe le x l = l ++ [x] := by
  induction l with
  | nil => rfl
  | cons y ys ih =>
      simp only [insertLe, h y (by simp), Bool.false_eq_true, if_false]
      rw [ih (fun z hz => h z (by simp [hz]))]
      rfl

/-- Insertion sort reverses a list that is strictly "ascending" for the
flipped comparison — the model of `ORDER BY created_at DESC` over rows
inserted in ascending creation order. -/
theorem insSort_eq_reverse {α : Type} (le : α → α → Bool) (l : List α)
    (h : l.Pairwise (fun a b => le a b = false)) : insSort le l = l.reverse := by
  induction l with
  | nil => rfl
  | cons x xs ih =>
      rcases List.pairwise_cons.mp h with ⟨hx, hxs⟩
      simp only [insSort, ih hxs, List.reverse_cons]
      exact insertLe_append le x xs.reverse
        (fun y hy => hx y (List.mem_reverse.mp hy))

theorem unlink_undeletable (fs : FileSys) (p : String) :
    (fs.unlink p).undeletable = fs.undeletable := rfl

theorem exists_unlink_self (fs : FileSys) (p : String) :
    (fs.unlink p).exists p = false := by
  unfold FileSys.unlink FileSys.exists
  simp only
  rw [List.any_eq_false]
  intro e he
  rcases List.mem_filter.mp he with ⟨_, hne⟩
  simp only [decide_not, Bool.not_eq_eq_eq_not, Bool.not_true,
    decide_eq_false_iff_not] at hne
  simp [hne]

theorem exists_unlink_ne (fs : FileSys) (p q : String) (h : q ≠ p) :
    (fs.unlink p).exists q = fs.exists q := by
  unfold FileSys.unlink FileSys.exists
  simp only
  cases hq : fs.files.any (fun e => e.1 == q) with
  | false =>
      rw [List.any_eq_false] at hq ⊢
      intro e he
      exact hq e (List.mem_filter.mp he).1
  | true =>
      rw [List.any_eq_true] at hq ⊢
      obtain ⟨e, he, heq⟩ := hq
      refine ⟨e, List.mem_filter.mpr ⟨he, ?_⟩, heq⟩
      have heq' : e.1 = q := by simpa using heq
      simp [heq', h]

theorem exists_of_exists_unlink (fs : FileSys) (p q : String)
    (h : (fs.unlink p).exists q = true) : fs.exists q = true := by
  unfold FileSys.unlink FileSys.exists at h
  unfold FileSys.exists
  simp only at h
  rw [List.any_eq_true] at h ⊢
  obtain ⟨e, he, heq⟩ := h
  exact ⟨e, (List.mem_filter.mp he).1, heq⟩

/-- `cleanupLoop` reduction: an existing but undeletable file raises
inside the `try`, so the whole iteration — including the catalog-row
delete — is skipped and the loop continues with the next doomed backup. -/
theorem cleanupLoop_skip (fs : FileSys) (catalog : List BackupRow) (n : Nat)
    (bid : Nat) (path : String) (rest : List (Nat × String))
    (hex : fs.exists path = true) (hun : path ∈ fs.undeletable) :
    cleanupLoop fs catalog n ((bid, path) :: rest) =
      cleanupLoop fs catalog n rest := by
  conv_lhs => rw [cleanupLoop]
  rw [if_pos hex, if_pos hun]

/-- `cleanupLoop` reduction: an existing, deletable file is unlinked and
the catalog row removed. -/
theorem cleanupLoop_del (fs : FileSys) (catalog : List BackupRow) (n : Nat)
    (bid : Nat) (path : String) (rest : List (Nat × String))
    (hex : fs.exists path = true) (hun : path ∉ fs.undeletable) :
    cleanupLoop fs catalog n ((bid, path) :: rest) =
      cleanupLoop (fs.unlink path) (catalog.filter (fun b => ¬ b.id == bid))
        (n + 1) rest := by
  conv_lhs => rw [cleanupLoop]
  rw [if_pos hex, if_neg hun]

/-- `cleanupLoop` reduction: a missing file needs no unlink; the catalog
row is removed. -/
theorem cleanupLoop_missing (fs : FileSys) (catalog : List BackupRow) (n : Nat)
    (bid : Nat) (path : String) (rest : List (Nat × String))
    (hex : fs.exists path = false) :
    cleanupLoop fs catalog n ((bid, path) :: rest) =
      cleanupLoop fs (catalog.filter (fun b => ¬ b.id == bid)) (n + 1) rest := by
  conv_lhs => rw [cleanupLoop]
  rw [if_neg (by simp [hex])]

/-- Membership of an id among the first components of the doomed-backup
pairs. -/
theorem contains_map_fst (rest : List (Nat × String)) (i : Nat) :
    (rest.map Prod.fst).contains i = true ↔ ∃ x, (i, x) ∈ rest := by
  rw [List.contains_eq_any_beq, List.any_eq_true]
  constructor
  · rintro ⟨j, hj, hij⟩
    have hije : i = j := by simpa using hij
    subst hije
    obtain ⟨d, hd, hdi⟩ := List.mem_map.mp hj
    refine ⟨d.2, ?_⟩
    have hde : (i, d.2) = d := by
      rw [← hdi]
    rw [hde]
    exact hd
  · rintro ⟨x, hx⟩
    exact ⟨i, List.mem_map.mpr ⟨(i, x), hx, rfl⟩, by simp⟩

/-- Full behaviour of the deletion loop when no listed file is both
present and undeletable: every listed catalog row is removed, the counter
advances once per listed backup, every listed file ends up absent, and the
rest of the file system is untouched. -/
theorem cleanupLoop_all_ok (ds : List (Nat × String)) :
    ∀ (fs : FileSys) (catalog : List BackupRow) (n : Nat),
    (∀ d ∈ ds, ¬ (fs.exists d.2 = true ∧ d.2 ∈ fs.undeletable)) →
    (cleanupLoop fs catalog n ds).2.1 =
      catalog.filter (fun b => ¬ (ds.map Prod.fst).contains b.id) ∧
    (cleanupLoop fs catalog n ds).2.2 = n + ds.length ∧
    (∀ d ∈ ds, (cleanupLoop fs catalog n ds).1.exists d.2 = false) ∧
    (∀ q, q ∉ ds.map Prod.snd →
      (cleanupLoop fs catalog n ds).1.exists q = fs.exists q) ∧
    (cleanupLoop fs catalog n ds).1.undeletable = fs.undeletable := by
  induction ds with
  | nil =>
      intro fs catalog n _
      refine ⟨?_, rfl, ?_, ?_, rfl⟩
      · simp [cleanupLoop]
      · intro d hd; cases hd
      · intro q _; rfl
  | cons d rest ih =>
      intro fs catalog n hok
      obtain ⟨bid, path⟩ := d
      have hnotun : ¬ (fs.exists path = true ∧ path ∈ fs.undeletable) :=
        hok (bid, path) (by simp)
      cases hex : fs.exists path with
      | true =>
          have hun : path ∉ fs.undeletable := fun hmem => hnotun ⟨hex, hmem⟩
          rw [cleanupLoop_del fs catalog n bid path rest hex hun]
          have hok' : ∀ e ∈ rest,
              ¬ ((fs.unlink path).exists e.2 = true ∧
                e.2 ∈ (fs.unlink path).undeletable) := by
            intro e he ⟨he1, he2⟩
            rw [unlink_undeletable] at he2
            exact hok e (by simp [he]) ⟨exists_of_exists_unlink fs path e.2 he1, he2⟩
          obtain ⟨ih1, ih2, ih3, ih4, ih5⟩ :=
            ih (fs.unlink path) (catalog.filter (fun b => ¬ b.id == bid)) (n + 1) hok'
          refine ⟨?_, ?_, ?_, ?_, ?_⟩
          · rw [ih1, List.filter_filter]
            apply List.filter_congr
            intro b _
            rw [List.map_cons, List.contains_cons]
            cases hc1 : (b.id == bid) <;>
              cases hc2 : ((rest.map Prod.fst).contains b.id) <;>
                simp [hc1, hc2]
          · rw [ih2]
            simp
            omega
          · intro e he
            rcases List.mem_cons.mp he with he | he
            · subst he
              by_cases hp : path ∈ rest.map Prod.snd
              · obtain ⟨e', he', hpe⟩ := List.mem_map.mp hp
                have := ih3 e' he'
                rw [hpe] at this
                exact this
              · rw [ih4 path hp]
                exact exists_unlink_self fs path
            · exact ih3 e he
          · intro q hq
            have hq1 : q ∉ rest.map Prod.snd := fun hmem => hq (by simp [hmem])
            have hq2 : q ≠ path := by
              intro he
              exact hq (by simp [he])
            rw [ih4 q hq1, exists_unlink_ne fs path q hq2]
          · rw [ih5, unlink_undeletable]
      | false =>
          rw [cleanupLoop_missing fs catalog n bid path rest hex]
          have hok' : ∀ e ∈ rest,
              ¬ (fs.exists e.2 = true ∧ e.2 ∈ fs.undeletable) :=
            fun e he => hok e (by simp [he])
          obtain ⟨ih1, ih2, ih3, ih4, ih5⟩ :=
            ih fs (catalog.filter (fun b => ¬ b.id == bid)) (n + 1) hok'
          refine ⟨?_, ?_, ?_, ?_, ?_⟩
          · rw [ih1, List.filter_filter]
            apply List.filter_congr
            intro b _
            rw [List.map_cons, List.contains_cons]
            cases hc1 : (b.id == bid) <;>
              cases hc2 : ((rest.map Prod.fst).contains b.id) <;>
                simp [hc1, hc2]
          · rw [ih2]
            simp
            omega
          · intro e he
            rcases List.mem_cons.mp he with he | he
            · subst he
              by_cases hp : path ∈ rest.map Prod.snd
              · obtain ⟨e', he', hpe⟩ := List.mem_map.mp hp
                have := ih3 e' he'
                rw [hpe] at this
                exact this
              · rw [ih4 path hp]
                exact hex
            · exact ih3 e he
          · intro q hq
            exact ih4 q (fun hmem => hq (by simp [hmem]))
          · exact ih5

/-- The ids of the `k` most recently created in-scope backups of the
catalog (any status), newest first: what the cleanup query actually
retains over a catalog in ascending creation order. -/
def mostRecentIds (catalog : List BackupRow) (backup_type : Option String)
    (k : Nat) : List Nat :=
  (((catalog.filter (inScopeB backup_type)).reverse).take k).map (fun b => b.id)

theorem nat_contains_iff (l : List Nat) (x : Nat) :
    l.contains x = true ↔ x ∈ l := by
  rw [List.contains_eq_any_beq, List.any_eq_true]
  constructor
  · rintro ⟨y, hy, hxy⟩
    have : x = y := by simpa using hxy
    rw [this]
    exact hy
  · intro hx
    exact ⟨x, hx, by simp⟩

/-- Over a catalog in strictly ascending creation order, the full
`cleanup_old_backups` computation reduces to the deletion loop over the
in-scope rows that are not among the `k` most recent, oldest first. -/
theorem cleanup_old_backups_eq (bs : BackupState) (k : Nat) (t : Option String)
    (hsorted : bs.catalog.Pairwise (fun a b => a.created_at < b.created_at)) :
    cleanup_old_backups bs k t =
      ({ bs with
          fs := (cleanupLoop bs.fs bs.catalog 0
            (((bs.catalog.filter (inScopeB t)).filter (fun b =>
              ¬ b.id ∈ mostRecentIds bs.catalog t k)).map
                (fun b => (b.id, b.file_path)))).1,
          catalog := (cleanupLoop bs.fs bs.catalog 0
            (((bs.catalog.filter (inScopeB t)).filter (fun b =>
              ¬ b.id ∈ mostRecentIds bs.catalog t k)).map
                (fun b => (b.id, b.file_path)))).2.1 },
        (cleanupLoop bs.fs bs.catalog 0
          (((bs.catalog.filter (inScopeB t)).filter (fun b =>
            ¬ b.id ∈ mostRecentIds bs.catalog t k)).map
              (fun b => (b.id, b.file_path)))).2.2) := by
  have h1 : insSort (fun a b => b.created_at ≤ a.created_at)
      (bs.catalog.filter (inScopeB t)) =
      (bs.catalog.filter (inScopeB t)).reverse :=
    insSort_eq_reverse _ _ ((hsorted.filter _).imp (fun hab => by
      simp only [decide_eq_false_iff_not, not_le]
      omega))
  have h3 : keepIds (bs.catalog.filter (inScopeB t)) k =
      mostRecentIds bs.catalog t k := by
    unfold keepIds mostRecentIds
    rw [h1]
  have h2 : insSort (fun a b => a.created_at ≤ b.created_at)
      ((bs.catalog.filter (inScopeB t)).filter (fun b =>
        ¬ b.id ∈ keepIds (bs.catalog.filter (inScopeB t)) k)) =
      (bs.catalog.filter (inScopeB t)).filter (fun b =>
        ¬ b.id ∈ keepIds (bs.catalog.filter (inScopeB t)) k) :=
    insSort_eq_self_of_pairwise _ _ (((hsorted.filter _).filter _).imp
      (fun hab => by
        simp only [decide_eq_true_eq]
        omega))
  simp only [cleanup_old_backups]
  rw [h2, h3]

/-- C9 (amended).  Over a catalog whose rows are in strictly ascending
creation order with distinct ids, and whose doomed files are all
deletable, `cleanup_old_backups keep_count type?` retains exactly the
`keep_count` most recently created in-scope backups *regardless of
status* (the retention subquery carries no `status = 'completed'`
filter) and out-of-scope rows, deletes every other in-scope backup's
catalog row and file (processing oldest first), and returns the number
deleted.  Separately: a file that exists but cannot be unlinked is
skipped — its catalog row survives and the loop continues with the rest
of the batch rather than aborting. -/
theorem cleanup_old_backups_amended (bs : BackupState) (k : Nat)
    (t : Option String)
    (hsorted : bs.catalog.Pairwise (fun a b => a.created_at < b.created_at))
    (hnodup : (bs.catalog.map (fun b => b.id)).Nodup)
    (hok : ∀ b ∈ bs.catalog,
      ¬ (bs.fs.exists b.file_path = true ∧ b.file_path ∈ bs.fs.undeletable)) :
    ((cleanup_old_backups bs k t).1.catalog =
        bs.catalog.filter (fun b =>
          !(inScopeB t b) || (mostRecentIds bs.catalog t k).contains b.id) ∧
      (cleanup_old_backups bs k t).2 =
        ((bs.catalog.filter (inScopeB t)).filter (fun b =>
          ¬ b.id ∈ mostRecentIds bs.catalog t k)).length ∧
      (∀ b ∈ bs.catalog, inScopeB t b = true →
        ¬ b.id ∈ mostRecentIds bs.catalog t k →
        (cleanup_old_backups bs k t).1.fs.exists b.file_path = false)) ∧
    (∀ (fs : FileSys) (catalog : List BackupRow) (n bid : Nat)
        (path : String) (rest : List (Nat × String)),
      fs.exists path = true → path ∈ fs.undeletable →
      cleanupLoop fs catalog n ((bid, path) :: rest) =
        cleanupLoop fs catalog n rest) := by
  refine ⟨?_, fun fs catalog n bid path rest hx hu =>
    cleanupLoop_skip fs catalog n bid path rest hx hu⟩
  rw [cleanup_old_backups_eq bs k t hsorted]
  have hds_ok : ∀ d ∈ ((bs.catalog.filter (inScopeB t)).filter (fun b =>
      ¬ b.id ∈ mostRecentIds bs.catalog t k)).map (fun b => (b.id, b.file_path)),
      ¬ (bs.fs.exists d.2 = true ∧ d.2 ∈ bs.fs.undeletable) := by
    intro d hd
    obtain ⟨b, hb, hbd⟩ := List.mem_map.mp hd
    have hbcat : b ∈ bs.catalog :=
      (List.mem_filter.mp (List.mem_filter.mp hb).1).1
    rw [← hbd]
    exact hok b hbcat
  obtain ⟨l1, l2, l3, l4, l5⟩ := cleanupLoop_all_ok _ bs.fs bs.catalog 0 hds_ok
  refine ⟨?_, ?_, ?_⟩
  · show (cleanupLoop bs.fs bs.catalog 0 _).2.1 = _
    rw [l1]
    apply List.filter_congr
    intro b hb
    rw [List.map_map]
    have hmem : (((bs.catalog.filter (inScopeB t)).filter (fun b =>
        ¬ b.id ∈ mostRecentIds bs.catalog t k)).map
          (Prod.fst ∘ fun b => (b.id, b.file_path))).contains b.id = true ↔
        ∃ b' ∈ (bs.catalog.filter (inScopeB t)).filter (fun b =>
          ¬ b.id ∈ mostRecentIds bs.catalog t k), b'.id = b.id := by
      rw [nat_contains_iff, List.mem_map]
      constructor
      · rintro ⟨b', hb', hid⟩
        exact ⟨b', hb', hid⟩
      · rintro ⟨b', hb', hid⟩
        exact ⟨b', hb', hid⟩
    by_cases hin : inScopeB t b = true
    · by_cases hkeep : b.id ∈ mostRecentIds bs.catalog t k
      · have hc : (((bs.catalog.filter (inScopeB t)).filter (fun b =>
            ¬ b.id ∈ mostRecentIds bs.catalog t k)).map
              (Prod.fst ∘ fun b => (b.id, b.file_path))).contains b.id = false := by
          cases hc0 : (((bs.catalog.filter (inScopeB t)).filter (fun b =>
              ¬ b.id ∈ mostRecentIds bs.catalog t k)).map
                (Prod.fst ∘ fun b => (b.id, b.file_path))).contains b.id with
          | false => rfl
          | true =>
              exfalso
              obtain ⟨b', hb', hid⟩ := hmem.mp hc0
              have hb'cat : b' ∈ bs.catalog :=
                (List.mem_filter.mp (List.mem_filter.mp hb').1).1
              have hbb : b' = b :=
                List.inj_on_of_nodup_map hnodup hb'cat hb hid
              subst hbb
              have hpred := (List.mem_filter.mp hb').2
              simp only [decide_eq_true_eq] at hpred
              exact hpred hkeep
        have hkc : (mostRecentIds bs.catalog t k).contains b.id = true :=
          (nat_contains_iff _ _).mpr hkeep
        rw [hc, hin, hkc]
        rfl
      · have hbf : b ∈ (bs.catalog.filter (inScopeB t)).filter (fun b =>
            ¬ b.id ∈ mostRecentIds bs.catalog t k) :=
          List.mem_filter.mpr ⟨List.mem_filter.mpr ⟨hb, hin⟩, by
            simpa using hkeep⟩
        have hc := hmem.mpr ⟨b, hbf, rfl⟩
        have hk2 : (mostRecentIds bs.catalog t k).contains b.id = false := by
          cases hk0 : (mostRecentIds bs.catalog t k).contains b.id with
          | false => rfl
          | true => exact absurd ((nat_contains_iff _ _).mp hk0) hkeep
        rw [hc, hin, hk2]
        rfl
    · have hc : (((bs.catalog.filter (inScopeB t)).filter (fun b =>
          ¬ b.id ∈ mostRecentIds bs.catalog t k)).map
            (Prod.fst ∘ fun b => (b.id, b.file_path))).contains b.id = false := by
        cases hc0 : (((bs.catalog.filter (inScopeB t)).filter (fun b =>
            ¬ b.id ∈ mostRecentIds bs.catalog t k)).map
              (Prod.fst ∘ fun b => (b.id, b.file_path))).contains b.id with
        | false => rfl
        | true =>
            exfalso
            obtain ⟨b', hb', hid⟩ := hmem.mp hc0
            have hb'cat : b' ∈ bs.catalog :=
              (List.mem_filter.mp (List.mem_filter.mp hb').1).1
            have hbb : b' = b :=
              List.inj_on_of_nodup_map hnodup hb'cat hb hid
            subst hbb
            exact hin (List.mem_filter.mp (List.mem_filter.mp hb').1).2
      have hin' : inScopeB t b = false := by
        cases h0 : inScopeB t b with
        | false => rfl
        | true => exact absurd h0 hin
      rw [hc, hin']
      simp
  · show (cleanupLoop bs.fs bs.catalog 0 _).2.2 = _
    rw [l2]
    simp
  · intro b hb hin hkeep
    show (cleanupLoop bs.fs bs.catalog 0 _).1.exists b.file_path = false
    have hbf : b ∈ (bs.catalog.filter (inScopeB t)).filter (fun b =>
        ¬ b.id ∈ mostRecentIds bs.catalog t k) :=
      List.mem_filter.mpr ⟨List.mem_filter.mpr ⟨hb, hin⟩, by simpa using hkeep⟩
    exact l3 (b.id, b.file_path) (List.mem_map.mpr ⟨b, hbf, rfl⟩)

/-- A completed `manual` backup row for the 5-backup retention witness. -/
def backupRow5 (i : Nat) : BackupRow :=
  { id := i, backup_type := "manual", file_path := "f" ++ toString i,
    size_bytes := some 1, checksum := some ("c" ++ toString i),
    status := "completed", description := none, created_at := i }

/-- Five completed backups, oldest first, all files present. -/
def backupState5 : BackupState :=
  { catalog := [backupRow5 1, backupRow5 2, backupRow5 3, backupRow5 4,
      backupRow5 5],
    nextBackupId := 6,
    fs := { files := [("f1", "x1"), ("f2", "x2"), ("f3", "x3"), ("f4", "x4"),
        ("f5", "x5")], undeletable := [] },
    db_path := "m.db", backup_dir := "d", now := 6 }

/-- Witness for the amended C9: after 5 backups, cleanup with
`keep_count = 3` leaves exactly the 3 most recent (ids 3,4,5), reports 2
deletions, and removed the 2 oldest files. -/
theorem cleanup_old_backups_amended_witness :
    (cleanup_old_backups backupState5 3 none).1.catalog.map (fun b => b.id) =
      [3, 4, 5] ∧
    (cleanup_old_backups backupState5 3 none).2 = 2 ∧
    (cleanup_old_backups backupState5 3 none).1.fs.exists "f1" = false ∧
    (cleanup_old_backups backupState5 3 none).1.fs.exists "f2" = false := by
  have h := cleanup_old_backups_amended backupState5 3 none
    (by decide) (by decide) (by decide)
  refine ⟨?_, ?_, ?_, ?_⟩
  · rw [h.1.1]
    rfl
  · rw [h.1.2.1]
    rfl
  · exact h.1.2.2 (backupRow5 1) (by decide) (by decide) (by decide)
  · exact h.1.2.2 (backupRow5 2) (by decide) (by decide) (by decide)
